import Mathlib

/-!
Verification of the grblas repository's specification.

The repository is a Python binding over an external GraphBLAS engine; the
engine itself (sparse containers, semiring multiply, mask/accumulator
resolution) is not part of the repository's source, only its callers (the
README and the two tutorial notebooks) are.  Following the specification,
the engine is modelled here from the spec's own words; the concrete
scenarios (the 7-vertex SSSP graph, the parent-BFS loop, the force_odd
example) are translated from the notebooks and the README.
-/

namespace Grblas

/-- Modelled from the spec: a sparse Vector is an ordered mapping from the
dense index range [0, size) to a sparse set of (index, value) pairs; an
index absent from the pair set has no stored value (distinct from a stored
zero).  The entry function returns the stored value at an index, or none
when the index has no stored value. -/
structure Vec (α : Type) where
  size : Nat
  entry : Nat → Option α

/-- Modelled from the spec: a sparse Matrix maps (row, col) in
[0,nrows)x[0,ncols) to an optional stored value. -/
structure Mat (α : Type) where
  nrows : Nat
  ncols : Nat
  entry : Nat → Nat → Option α

/-- Modelled from the spec: a semiring is a pair of an additive combine
(used for reduction) and a multiplicative combine. -/
structure SR (α : Type) where
  add : α → α → α
  mul : α → α → α

/-- Modelled from the spec: newVector(type, size) - a freshly constructed
vector with fixed size and no stored entries. -/
def Vec.empty (n : Nat) : Vec α :=
  ⟨n, fun _ => none⟩

/-- Modelled from the spec: setElement(index, value) inserts or overwrites
a single entry. -/
def Vec.setElement (v : Vec α) (i : Nat) (x : α) : Vec α :=
  ⟨v.size, fun j => if j = i then some x else v.entry j⟩

/-- Modelled from the spec: extractElement(index) returns the stored value,
or reports absence (NoValueError) as none. -/
def Vec.extractElement (v : Vec α) (i : Nat) : Option α :=
  v.entry i

/-- Modelled from the spec: nvals() returns the current entry count. -/
def Vec.nvals (v : Vec α) : Nat :=
  ((Finset.range v.size).filter (fun i => (v.entry i).isSome)).card

/-- First-match association-list lookup on Nat keys, used to model bulk
container construction from index/value pairs. -/
def lookupFirst : List (Nat × α) → Nat → Option α
  | [], _ => none
  | (j, x) :: rest, i => if i = j then some x else lookupFirst rest i

/-- Modelled from the spec: build(indices, values) bulk-loads a full entry
set into a vector of the given size, replacing any existing content. -/
def Vec.build (n : Nat) (pairs : List (Nat × α)) : Vec α :=
  ⟨n, fun i => lookupFirst pairs i⟩

/-- Modelled from the spec: toValues() returns the stored (index, value)
pairs in a stable index order. -/
def Vec.toValues (v : Vec α) : List (Nat × α) :=
  (List.range v.size).filterMap (fun i => (v.entry i).map (fun x => (i, x)))

/-- Container equivalence: same size and the same stored content at every
index of the dense range.  This is the meaning of == on containers. -/
def Vec.Equiv (v w : Vec α) : Prop :=
  v.size = w.size ∧ ∀ i, i < v.size → v.entry i = w.entry i

instance Vec.instDecidableEquiv [DecidableEq α] (v w : Vec α) :
    Decidable (Vec.Equiv v w) := by
  unfold Vec.Equiv
  infer_instance

/-- Modelled from the spec: newMatrix(type, nrows, ncols) - a freshly
constructed matrix with no stored entries. -/
def Mat.empty (nr nc : Nat) : Mat α :=
  ⟨nr, nc, fun _ _ => none⟩

/-- Modelled from the spec: matrix setElement((i,j), value). -/
def Mat.setElement (M : Mat α) (i j : Nat) (x : α) : Mat α :=
  ⟨M.nrows, M.ncols, fun r c => if r = i ∧ c = j then some x else M.entry r c⟩

/-- Modelled from the spec: matrix extractElement, none when absent. -/
def Mat.extractElement (M : Mat α) (i j : Nat) : Option α :=
  M.entry i j

/-- Modelled from the spec: matrix nvals() - the current entry count. -/
def Mat.nvals (M : Mat α) : Nat :=
  (((Finset.range M.nrows) ×ˢ (Finset.range M.ncols)).filter
    (fun p => (M.entry p.1 p.2).isSome)).card

/-- Modelled from the spec: bulk matrix build from (row, col, value)
triples (Matrix.new_from_values). -/
def Mat.build (nr nc : Nat) (ts : List (Nat × Nat × α)) : Mat α :=
  ⟨nr, nc, fun i j => (ts.find? (fun t => t.1 == i && t.2.1 == j)).map (fun t => t.2.2)⟩

/-- Modelled from the spec: whether output position p is masked in.  A
missing mask admits every position; a present mask is used structurally
(only presence of a stored entry matters) and may be complemented. -/
def maskedInAt (mask : Option (Vec β)) (complement : Bool) (p : Nat) : Bool :=
  match mask with
  | none => true
  | some m => (m.entry p).isSome != complement

/-- Modelled from the spec: the per-position mask/accumulator resolution of
section 4.4.  Given whether p is masked in, the replace flag, the optional
accumulator, the existing output value o and the freshly computed value t,
it returns p's final value.  Masked-out positions are cleared under replace
and kept under no-replace; masked-in positions take t (overwriting) when no
accumulator is given, accumulator(o, t) when both o and t are present, and
t when o is absent; an absent t leaves o unless replace clears it. -/
def resolveEntry (maskedIn replace : Bool) (accum : Option (α → α → α))
    (o t : Option α) : Option α :=
  match maskedIn, t with
  | false, _ => if replace then none else o
  | true, none => if replace then none else o
  | true, some tv =>
    match accum, o with
    | none, _ => some tv
    | some f, some ov => some (f ov tv)
    | some _, none => some tv

/-- Modelled from the spec: a write-producing operation mutating an output
container in place: every position of the output is resolved through the
mask/accumulator matrix against the freshly computed container. -/
def writeOut (out : Vec α) (computed : Vec α) (mask : Option (Vec β))
    (complement replace : Bool) (accum : Option (α → α → α)) : Vec α :=
  ⟨out.size, fun p =>
    resolveEntry (maskedInAt mask complement p) replace accum
      (out.entry p) (computed.entry p)⟩

/-- The additive reduction of a possibly empty list of combined products:
an empty reduction set yields no stored entry, a non-empty one folds the
additive combine over its elements. -/
def foldOpt (add : α → α → α) : List α → Option α
  | [] => none
  | x :: xs => some (xs.foldl add x)

/-- Modelled from the spec: vector-times-matrix under a semiring.  For each
column j of A, w[j] is the additive reduction over the rows i where both
v[i] and A[i,j] are stored of v[i] combined multiplicatively with A[i,j];
the result has an entry at j only if that reduction set is non-empty. -/
def vxm (v : Vec α) (A : Mat α) (S : SR α) : Vec α :=
  ⟨A.ncols, fun j =>
    foldOpt S.add ((List.range v.size).filterMap (fun i =>
      match v.entry i, A.entry i j with
      | some x, some y => some (S.mul x y)
      | _, _ => none))⟩

/-- Modelled from the spec: element-wise multiply, whose result is stored
exactly on the intersection of the two operands' stored supports. -/
def ewiseMult (a b : Vec α) (f : α → α → α) : Vec α :=
  ⟨a.size, fun i =>
    match a.entry i, b.entry i with
    | some x, some y => some (f x y)
    | _, _ => none⟩

/-- Modelled from the spec: apply - the element-wise unary transform
preserving the input's sparsity pattern. -/
def Vec.apply (v : Vec α) (f : α → β) : Vec β :=
  ⟨v.size, fun i => (v.entry i).map f⟩

/-- The MIN_PLUS semiring over the natural numbers: add = min (its
identity, plus infinity, is represented structurally by absence),
multiply = plus. -/
def minPlusSR : SR Nat :=
  ⟨Nat.min, Nat.add⟩

/-- The MIN_FIRST semiring: add = min, multiply takes the left operand
only. -/
def minFirstSR : SR Nat :=
  ⟨Nat.min, fun x _ => x⟩

/-- The reduction set of column j for vxm: the rows i of the dense range
where both v[i] and A[i,j] have stored values. -/
def reductionIndices (v : Vec α) (A : Mat α) (j : Nat) : List Nat :=
  (List.range v.size).filter (fun i => (v.entry i).isSome && (A.entry i j).isSome)

/-- The product term v[i] combined multiplicatively with A[i,j], read off
the stored values (only evaluated on the reduction set, where both are
present). -/
def prodTerm [Inhabited α] (v : Vec α) (A : Mat α) (S : SR α) (j i : Nat) : α :=
  S.mul (v.entry i).iget (A.entry i j).iget

/-- The spec's description of the vxm column value: the additive reduction
of the product terms over the reduction set of column j. -/
def vxmSpec [Inhabited α] (v : Vec α) (A : Mat α) (S : SR α) (j : Nat) : Option α :=
  foldOpt S.add ((reductionIndices v A j).map (prodTerm v A S j))

/-- The square matrix with the element e stored on every diagonal position
of its dense range and nothing elsewhere (the notebook builds it as
Matrix.new_from_values(range(7), range(7), [0]*7)). -/
def identityMatrix (n : Nat) (e : α) : Mat α :=
  ⟨n, n, fun i j => if i = j ∧ i < n then some e else none⟩

/-- The user-defined unary function force_odd of the README: even numbers
are bumped to the next odd number, odd numbers pass through. -/
def force_odd (x : Nat) : Nat :=
  if x % 2 = 0 then x + 1 else x

/-- Modelled from the spec: the error kinds of the engine, all surfaced
synchronously to the caller. -/
inductive GrbError
  | dimensionMismatch
  | duplicateIndex
  | noValue
  | indexOutOfBounds
deriving DecidableEq

/-- Modelled from the spec: the shape preconditions of a masked vxm call:
the vector length must match the matrix row count, the output length the
matrix column count, and a present mask must have the output's shape. -/
def vxmValid (out : Vec α) (mask : Option (Vec β)) (v : Vec α) (A : Mat α) : Bool :=
  (v.size == A.nrows) && (out.size == A.ncols) &&
    (match mask with
     | none => true
     | some m => m.size == out.size)

/-- Modelled from the spec: the complete masked/accumulated vxm call with
fail-fast validation: every shape precondition is checked before any
mutation, and only when all of them hold is the output written. -/
def vxmChecked (out : Vec α) (mask : Option (Vec β)) (complement replace : Bool)
    (accum : Option (α → α → α)) (v : Vec α) (A : Mat α) (S : SR α) :
    Except GrbError (Vec α) :=
  if vxmValid out mask v A then
    .ok (writeOut out (vxm v A S) mask complement replace accum)
  else
    .error .dimensionMismatch

/-- The caller-visible content of the output container after a vxm call:
on success the written result, on a validation failure the container
exactly as it was. -/
def vxmExec (out : Vec α) (mask : Option (Vec β)) (complement replace : Bool)
    (accum : Option (α → α → α)) (v : Vec α) (A : Mat α) (S : SR α) : Vec α :=
  match vxmChecked out mask complement replace accum v A S with
  | .ok w => w
  | .error _ => out

/-- The 7-vertex weighted directed graph of the SSSP notebook, as (row,
col, weight) triples taken from data = [[3,0,3,5,6,0,6,1,6,2,4,1],
[0,1,2,2,2,3,3,4,4,5,5,6], [3,2,3,1,5,3,7,8,3,1,7,4]]. -/
def ssspEdges : List (Nat × Nat × Nat) :=
  [(3, 0, 3), (0, 1, 2), (3, 2, 3), (5, 2, 1), (6, 2, 5), (0, 3, 3),
   (6, 3, 7), (1, 4, 8), (6, 4, 3), (2, 5, 1), (4, 5, 7), (1, 6, 4)]

/-- The notebook's 7 x 7 adjacency matrix m =
Matrix.new_from_values(rows, cols, weights). -/
def ssspMatrix : Mat Nat :=
  Mat.build 7 7 ssspEdges

/-- The notebook's matrix after the loop storing 0 on every diagonal
position: for i in range(m.nrows): m.element[i, i] = 0. -/
def ssspMatrixDiag : Mat Nat :=
  (List.range 7).foldl (fun M i => M.setElement i i 0) ssspMatrix

/-- Empty-slice assignment, out[:] = computed: no mask, no accumulator,
no replace. -/
def assignAll (out computed : Vec α) : Vec α :=
  writeOut out computed (none : Option (Vec α)) false false none

/-- One iteration of the notebook's SSSP loop:
v[:] = v.vxm(m, Semiring.MIN_PLUS). -/
def ssspStep (v : Vec Nat) : Vec Nat :=
  assignAll v (vxm v ssspMatrixDiag minPlusSR)

/-- The notebook's convergence loop with explicit fuel: repeat the step
until the new vector equals the previous one, then stop. -/
def ssspRun : Nat → Vec Nat → Vec Nat
  | 0, v => v
  | fuel + 1, v =>
    let w := ssspStep v
    if Vec.Equiv w v then w else ssspRun fuel w

/-- The notebook's seed: a fresh vector of size 7 with v[1] = 0. -/
def ssspSeed : Vec Nat :=
  (Vec.empty 7).setElement 1 0

/-- The result of the notebook's SSSP fixed-point loop. -/
def ssspResult : Vec Nat :=
  ssspRun 10 ssspSeed

/-- Reference Bellman-Ford: relax a single directed edge (u, w, c),
treating an absent distance as infinite. -/
def relaxEdge (d : Nat → Option Nat) (e : Nat × Nat × Nat) : Nat → Option Nat :=
  fun x =>
    if x = e.2.1 then
      match d e.1, d x with
      | some du, some dx => some (Nat.min dx (du + e.2.2))
      | some du, none => some (du + e.2.2)
      | none, dx => dx
    else d x

/-- Reference Bellman-Ford: n rounds of relaxing every edge, starting
from distance 0 at the source and no value elsewhere; vertices still
without a value are unreachable. -/
def bellmanFord (n : Nat) (edges : List (Nat × Nat × Nat)) (s : Nat) :
    Nat → Option Nat :=
  (fun d => edges.foldl relaxEdge d)^[n] (fun x => if x = s then some 0 else none)

/-- The BFS notebook's boolean adjacency matrix over the same edges, every
stored value True; True is represented by 1 since the engine typecasts the
BOOL entries into the UINT64 domain of the MIN_FIRST semiring, whose
multiply ignores the right operand. -/
def bfsMatrix : Mat Nat :=
  Mat.build 7 7 (ssspEdges.map (fun e => (e.1, e.2.1, 1)))

/-- The index ramp of the BFS notebook:
index_ramp.rebuild_from_values(range(N), range(N)). -/
def indexRamp (n : Nat) : Vec Nat :=
  Vec.build n ((List.range n).map (fun i => (i, i)))

/-- One iteration of the parent-BFS loop body:
wavefront[:] = index_ramp.ewise_mult(wavefront, BinaryOp.FIRST);
wavefront[~parents, REPLACE] = wavefront.vxm(A, Semiring.MIN_FIRST);
parents[BinaryOp.PLUS] = wavefront.apply(UnaryOp.IDENTITY).
The state is the pair (parents, wavefront). -/
def bfsStep (A : Mat Nat) (ramp : Vec Nat) (st : Vec Nat × Vec Nat) :
    Vec Nat × Vec Nat :=
  let wf1 := assignAll st.2 (ewiseMult ramp st.2 (fun x _ => x))
  let wf2 := writeOut wf1 (vxm wf1 A minFirstSR) (some st.1) true true none
  let parents2 := writeOut st.1 (Vec.apply wf2 (fun x => x))
    (none : Option (Vec Nat)) false false (some Nat.add)
  (parents2, wf2)

/-- The initial BFS state: parents[s] = s and wavefront[s] = 1 on fresh
vectors of size n. -/
def bfsInit (n s : Nat) : Vec Nat × Vec Nat :=
  ((Vec.empty n).setElement s s, (Vec.empty n).setElement s 1)

/-- The parent-BFS while-loop with explicit fuel: while wavefront.nvals is
positive, run the loop body. -/
def bfsRun (A : Mat Nat) (ramp : Vec Nat) : Nat → (Vec Nat × Vec Nat) → (Vec Nat × Vec Nat)
  | 0, st => st
  | fuel + 1, st =>
    if st.2.nvals = 0 then st else bfsRun A ramp fuel (bfsStep A ramp st)

/-- The final state of the notebook's BFS on the 7-vertex graph from
source vertex 1. -/
def bfsFinal : Vec Nat × Vec Nat :=
  bfsRun bfsMatrix (indexRamp 7) 10 (bfsInit 7 1)

/-- Reference shortest-hop distances from vertex 1: Bellman-Ford over the
same edges with unit weights; none marks an unreachable vertex. -/
def hopDist (x : Nat) : Option Nat :=
  bellmanFord 7 (ssspEdges.map (fun e => (e.1, e.2.1, 1))) 1 x

/-- Checks that p is a valid BFS parent vector for the 7-vertex graph with
root 1: the root is its own parent, every reachable vertex stores a parent
that is the tail of an edge into it lying one hop closer to the root, and
an unreachable vertex stores nothing. -/
def validParentVec (p : Vec Nat) : Bool :=
  (p.entry 1 == some 1) &&
    (List.range 7).all (fun x =>
      if x = 1 then true
      else
        match p.entry x, hopDist x with
        | some q, some hx =>
          (bfsMatrix.entry q x).isSome &&
            (match hopDist q with
             | some hq => hq + 1 == hx
             | none => false)
        | none, none => true
        | _, _ => false)

/-- The k-th state of the parent-BFS iteration on an arbitrary adjacency
matrix, starting from the seed state for source s on vectors of size n. -/
def bfsIterState (A : Mat Nat) (n s k : Nat) : Vec Nat × Vec Nat :=
  (bfsStep A (indexRamp n))^[k] (bfsInit n s)

/-- Claim C1: mask/accumulator resolution at every output position follows
the spec's four-way matrix: no mask means every position is masked in; a
present computed value t with no accumulator overwrites; with accumulator
and existing value o the result is accumulator(o, t); with accumulator but
o absent the result is t; a masked-out position becomes absent under
replace and keeps o without replace.  In particular for o=5, t=3,
accumulator=min, mask absent the result is 3; accumulator absent gives 3;
masked out with replace gives absent; masked out without replace keeps 5. -/
theorem resolveEntry_four_way_matrix :
    (∀ (β : Type) (c : Bool) (p : Nat), maskedInAt (none : Option (Vec β)) c p = true)
    ∧ (∀ (α : Type) (r : Bool) (o : Option α) (tv : α),
        resolveEntry true r none o (some tv) = some tv)
    ∧ (∀ (α : Type) (r : Bool) (f : α → α → α) (ov tv : α),
        resolveEntry true r (some f) (some ov) (some tv) = some (f ov tv))
    ∧ (∀ (α : Type) (r : Bool) (f : α → α → α) (tv : α),
        resolveEntry true r (some f) none (some tv) = some tv)
    ∧ (∀ (α : Type) (acc : Option (α → α → α)) (o t : Option α),
        resolveEntry false true acc o t = none)
    ∧ (∀ (α : Type) (acc : Option (α → α → α)) (o t : Option α),
        resolveEntry false false acc o t = o)
    ∧ resolveEntry true false (some Nat.min) (some 5) (some 3) = some 3
    ∧ resolveEntry true false none (some 5) (some 3) = some 3
    ∧ resolveEntry false true none (some 5) (some 3) = none
    ∧ resolveEntry false false none (some 5) (some 3) = some 5 := by
  refine ⟨fun β c p => rfl, fun α r o tv => rfl, fun α r f ov tv => rfl,
    fun α r f tv => rfl, fun α acc o t => rfl, fun α acc o t => rfl,
    ?_, rfl, rfl, rfl⟩
  simp [resolveEntry]

theorem filterMap_match_eq_filter_map [Inhabited α] (v : Vec α) (A : Mat α)
    (S : SR α) (j : Nat) (l : List Nat) :
    (l.filterMap (fun i =>
        match v.entry i, A.entry i j with
        | some x, some y => some (S.mul x y)
        | _, _ => none)) =
      (l.filter (fun i => (v.entry i).isSome && (A.entry i j).isSome)).map
        (prodTerm v A S j) := by
  induction l with
  | nil => rfl
  | cons a l ih =>
    rcases hv : v.entry a with _ | x <;> rcases hA : A.entry a j with _ | y <;>
      simp [List.filterMap_cons, List.filter_cons, hv, hA, ih, prodTerm]

/-- Claim C2: for every vector v, matrix A and semiring, vxm computes for
each column j the additive reduction over the rows i in the intersection
of the stored supports of v and of column j of A of the products
v[i] (mul) A[i,j], and the output has a stored entry at j exactly when
that reduction set is non-empty.  Presence is structural: an explicitly
stored zero in v produces an output entry while an absent entry does
not. -/
theorem vxm_columnwise_reduction [Inhabited α] (v : Vec α) (A : Mat α) (S : SR α) :
    ((vxm v A S).size = A.ncols)
    ∧ (∀ j, (vxm v A S).entry j = vxmSpec v A S j)
    ∧ (∀ j, ((vxm v A S).entry j = none ↔ reductionIndices v A j = []))
    ∧ ((vxm (Vec.build 1 [(0, 0)]) (Mat.build 1 1 [(0, 0, 0)]) minPlusSR).entry 0
        = some 0)
    ∧ ((vxm ((Vec.empty 1 : Vec Nat)) (Mat.build 1 1 [(0, 0, 0)]) minPlusSR).entry 0
        = none) := by
  refine ⟨rfl, fun j => ?_, fun j => ?_, by decide, by decide⟩
  · show foldOpt S.add _ = foldOpt S.add _
    rw [filterMap_match_eq_filter_map v A S j]
    rfl
  · show foldOpt S.add _ = none ↔ _
    rw [filterMap_match_eq_filter_map v A S j]
    show foldOpt S.add ((reductionIndices v A j).map (prodTerm v A S j)) = none ↔ _
    rcases h : reductionIndices v A j with _ | ⟨a, l⟩
    · simp [foldOpt]
    · simp [foldOpt]

theorem filterMap_range_eq_single (f : Nat → Option β) (n j : Nat) (hj : j < n)
    (h : ∀ i, i ≠ j → f i = none) :
    (List.range n).filterMap f = (f j).toList := by
  induction n with
  | zero => omega
  | succ n ih =>
    rw [List.range_succ, List.filterMap_append]
    rcases Nat.lt_or_ge j n with hlt | hge
    · have hn : f n = none := h n (by omega)
      simp [ih hlt, hn]
    · have hjn : j = n := by omega
      subst hjn
      have hnil : (List.range j).filterMap f = [] := by
        rw [List.filterMap_eq_nil_iff]
        intro a ha
        exact h a (by simp at ha; omega)
      rcases hfj : f j with _ | b <;> simp [hnil, hfj]

/-- The amended claim C3, proved: for every semiring S and every element e
that is a right identity of S's multiplicative combine (the multiplicative
identity, e.g. 0 for multiply = plus as in the notebook's zero diagonal
under MIN_PLUS), v.vxm(identityMatrix_e, S) is equivalent to v for every
vector v.  (With e read as the additive identity of S the property fails;
see the counterexample.) -/
theorem vxm_identityMatrix (S : SR α) (e : α) (hmul : ∀ x, S.mul x e = x)
    (v : Vec α) : Vec.Equiv (vxm v (identityMatrix v.size e) S) v := by
  refine ⟨rfl, fun j hj => ?_⟩
  have hj' : j < v.size := hj
  show foldOpt S.add _ = v.entry j
  have hsingle : (List.range v.size).filterMap (fun i =>
      match v.entry i, (identityMatrix v.size e).entry i j with
      | some x, some y => some (S.mul x y)
      | _, _ => none) =
      ((match v.entry j, (identityMatrix v.size e).entry j j with
        | some x, some y => some (S.mul x y)
        | _, _ => none) : Option α).toList := by
    refine filterMap_range_eq_single _ v.size j hj' (fun i hi => ?_)
    have hz : (identityMatrix v.size e).entry i j = none := by
      simp [identityMatrix]
      intro he
      exact absurd he hi
    rcases v.entry i with _ | x <;> simp [hz]
  rw [hsingle]
  have hd : (identityMatrix v.size e).entry j j = some e := by
    simp [identityMatrix, hj']
  rcases hv : v.entry j with _ | x
  · simp [hv, hd, foldOpt]
  · simp [hv, hd, foldOpt, hmul x]

/-- Witness for the amended claim C3: the MIN_PLUS semiring with e = 0
(the multiplicative identity) on a concrete vector of size 3. -/
theorem vxm_identityMatrix_witness :
    (∀ x : Nat, minPlusSR.mul x 0 = x)
    ∧ Vec.Equiv (vxm (Vec.build 3 [(0, 14), (1, 0)]) (identityMatrix 3 0) minPlusSR)
        (Vec.build 3 [(0, 14), (1, 0)]) := by
  have h : ∀ x : Nat, minPlusSR.mul x 0 = x := fun x => rfl
  exact ⟨h, vxm_identityMatrix minPlusSR 0 h (Vec.build 3 [(0, 14), (1, 0)])⟩

/-- Counterexample to claim C3 as stated: the spec defines a semiring by
its additive identity, and with e taken as the additive identity the
property fails.  For the semiring (add = plus, multiply = times) over Nat,
whose additive identity is 0 (witnessed concretely below on 17), the
vector v with the single stored value 5 at index 0 is not reproduced by
v.vxm(identityMatrix_0, S): the result stores 5 * 0 = 0 at index 0. -/
theorem vxm_identityMatrix_additive_counterexample :
    (SR.add ⟨Nat.add, Nat.mul⟩ 0 17 = 17)
    ∧ (SR.add ⟨Nat.add, Nat.mul⟩ 17 0 = 17)
    ∧ ((vxm (Vec.build 1 [(0, 5)]) (identityMatrix 1 0)
          (⟨Nat.add, Nat.mul⟩ : SR Nat)).entry 0 = some 0)
    ∧ ¬ Vec.Equiv (vxm (Vec.build 1 [(0, 5)]) (identityMatrix 1 0)
          (⟨Nat.add, Nat.mul⟩ : SR Nat)) (Vec.build 1 [(0, 5)]) := by
  refine ⟨rfl, rfl, by decide, ?_⟩
  intro hEq
  have h0 := hEq.2 0 (by decide)
  revert h0
  decide

/-- Claim C7: for every container and every unary function f, apply (with
no mask and no accumulator) yields an output whose stored-index set equals
the input's exactly - it never creates an entry at a position the input
lacks - and each stored value is f of the input's value there.  On the
README example, the vector with indexes [0,1,3] and values [1,2,3] maps
under force_odd to indexes [0,1,3] and values [1,3,3]. -/
theorem apply_preserves_sparsity :
    (∀ (α β : Type) (f : α → β) (v : Vec α), (Vec.apply v f).size = v.size)
    ∧ (∀ (α β : Type) (f : α → β) (v : Vec α) (i : Nat),
        ((Vec.apply v f).entry i).isSome = (v.entry i).isSome)
    ∧ (∀ (α β : Type) (f : α → β) (v : Vec α) (i : Nat),
        (Vec.apply v f).entry i = (v.entry i).map f)
    ∧ ((Vec.apply (Vec.build 4 [(0, 1), (1, 2), (3, 3)]) force_odd).toValues
        = [(0, 1), (1, 3), (3, 3)]) := by
  refine ⟨fun α β f v => rfl, fun α β f v i => ?_, fun α β f v i => rfl, by decide⟩
  rcases h : v.entry i with _ | x <;> simp [Vec.apply, h]

theorem setElement_empty_nvals (n s : Nat) (x : α) (hs : s < n) :
    ((Vec.empty n).setElement s x).nvals = 1 := by
  have hcongr : ((Vec.empty n).setElement s x : Vec α).nvals
      = ((Finset.range n).filter (fun i => i = s)).card := by
    unfold Vec.nvals
    refine congrArg Finset.card (Finset.filter_congr (fun i hi => ?_))
    by_cases h : i = s <;> simp [Vec.setElement, Vec.empty, h]
  rw [hcongr, Finset.filter_eq', if_pos (Finset.mem_range.mpr hs)]
  simp

/-- Claim C9: a freshly constructed Vector or Matrix has no stored entries
at all - nvals is 0 and extractElement at any index reports absence - and
after a single setElement at index s, s is the only index with a stored
value (with nvals 1 when s is in range); new containers start empty rather
than zero-filled. -/
theorem fresh_containers_empty :
    (∀ (α : Type) (n : Nat), (Vec.empty n : Vec α).nvals = 0)
    ∧ (∀ (α : Type) (n i : Nat), (Vec.empty n : Vec α).extractElement i = none)
    ∧ (∀ (α : Type) (nr nc : Nat), (Mat.empty nr nc : Mat α).nvals = 0)
    ∧ (∀ (α : Type) (nr nc i j : Nat),
        (Mat.empty nr nc : Mat α).extractElement i j = none)
    ∧ (∀ (α : Type) (n s : Nat) (x : α) (i : Nat),
        ((Vec.empty n).setElement s x).entry i = if i = s then some x else none)
    ∧ (∀ (α : Type) (n s : Nat) (x : α), s < n →
        ((Vec.empty n).setElement s x).nvals = 1) := by
  refine ⟨fun α n => ?_, fun α n i => rfl, fun α nr nc => ?_, fun α nr nc i j => rfl,
    fun α n s x i => rfl, fun α n s x hs => setElement_empty_nvals n s x hs⟩
  · simp [Vec.nvals, Vec.empty]
  · simp [Mat.nvals, Mat.empty]

/-- Witness for claim C9: the concrete instance n = 4, s = 1, x = 7 of the
bounded conjunct. -/
theorem fresh_containers_empty_witness :
    (1 < 4) ∧ ((Vec.empty 4).setElement 1 (7 : Nat)).nvals = 1 :=
  ⟨by decide, fresh_containers_empty.2.2.2.2.2 Nat 4 1 7 (by decide)⟩

theorem lookupFirst_eq_some_iff (l : List (Nat × α)) (i : Nat) (x : α) :
    (l.map Prod.fst).Nodup → (lookupFirst l i = some x ↔ (i, x) ∈ l) := by
  induction l with
  | nil => intro _; simp [lookupFirst]
  | cons a l ih =>
    rcases a with ⟨j, y⟩
    intro hnd
    simp only [List.map_cons, List.nodup_cons] at hnd
    by_cases h : i = j
    · subst h
      have hnotin : (i, x) ∉ l := fun hmem =>
        hnd.1 (List.mem_map_of_mem Prod.fst hmem)
      simp only [lookupFirst, if_pos rfl, List.mem_cons]
      constructor
      · intro hsome
        injection hsome with h2
        exact Or.inl (by rw [h2])
      · rintro (heq | hmem)
        · injection heq with h1 h2
          subst h2
          simp
        · exact absurd hmem hnotin
    · simp only [lookupFirst, if_neg h, List.mem_cons]
      rw [ih hnd.2]
      constructor
      · exact Or.inr
      · rintro (heq | hmem)
        · injection heq with h1 h2
          exact absurd h1 h
        · exact hmem

theorem lookupFirst_eq_none_iff (l : List (Nat × α)) (i : Nat) :
    lookupFirst l i = none ↔ i ∉ l.map Prod.fst := by
  induction l with
  | nil => simp [lookupFirst]
  | cons a l ih =>
    rcases a with ⟨j, y⟩
    by_cases h : i = j <;> simp [lookupFirst, h, ih]

theorem lookupFirst_perm (l₁ l₂ : List (Nat × α)) (hp : l₁.Perm l₂)
    (hnd : (l₁.map Prod.fst).Nodup) (i : Nat) :
    lookupFirst l₁ i = lookupFirst l₂ i := by
  have hnd2 : (l₂.map Prod.fst).Nodup := ((hp.map Prod.fst).nodup_iff).mp hnd
  rcases h2 : lookupFirst l₂ i with _ | x
  · rw [lookupFirst_eq_none_iff] at h2 ⊢
    intro hmem
    exact h2 ((hp.map Prod.fst).mem_iff.mp hmem)
  · rw [lookupFirst_eq_some_iff l₂ i x hnd2] at h2
    exact (lookupFirst_eq_some_iff l₁ i x hnd).mpr (hp.mem_iff.mpr h2)

theorem map_fst_filterMap_pairs (f : Nat → Option α) (l : List Nat) :
    ((l.filterMap (fun i => (f i).map (fun x => (i, x)))).map Prod.fst)
      = l.filter (fun i => (f i).isSome) := by
  induction l with
  | nil => rfl
  | cons a l ih =>
    rcases h : f a with _ | x <;>
      simp [List.filterMap_cons, List.filter_cons, h, ih]

theorem toValues_keys (v : Vec α) :
    (v.toValues.map Prod.fst)
      = (List.range v.size).filter (fun i => (v.entry i).isSome) :=
  map_fst_filterMap_pairs v.entry (List.range v.size)

theorem toValues_keys_nodup (v : Vec α) : (v.toValues.map Prod.fst).Nodup := by
  rw [toValues_keys]
  exact (List.nodup_range _).filter _

theorem mem_toValues_iff (v : Vec α) (i : Nat) (x : α) :
    (i, x) ∈ v.toValues ↔ i < v.size ∧ v.entry i = some x := by
  unfold Vec.toValues
  rw [List.mem_filterMap]
  constructor
  · rintro ⟨a, ha, hfa⟩
    rcases h : v.entry a with _ | y
    · rw [h] at hfa
      simp at hfa
    · rw [h] at hfa
      simp only [Option.map_some'] at hfa
      injection hfa with hpair
      injection hpair with h1 h2
      subst h1
      subst h2
      exact ⟨List.mem_range.mp ha, h⟩
  · rintro ⟨hi, hx⟩
    exact ⟨i, List.mem_range.mpr hi, by rw [hx]; rfl⟩

theorem lookupFirst_toValues (v : Vec α) (i : Nat) (hi : i < v.size) :
    lookupFirst v.toValues i = v.entry i := by
  rcases h : v.entry i with _ | x
  · rw [lookupFirst_eq_none_iff, toValues_keys]
    simp [List.mem_filter, h]
  · exact (lookupFirst_eq_some_iff _ i x (toValues_keys_nodup v)).mpr
      ((mem_toValues_iff v i x).mpr ⟨hi, h⟩)

theorem nvals_congr (v w : Vec α) (h : Vec.Equiv v w) : v.nvals = w.nvals := by
  unfold Vec.nvals
  rw [h.1]
  refine congrArg Finset.card (Finset.filter_congr (fun i hi => ?_))
  rw [h.2 i (h.1 ▸ Finset.mem_range.mp hi)]

/-- Claim C8: rebuilding a container of the same size from any permutation
of the (index, value) pairs that toValues() returned yields an equivalent
container - same nvals and the same index-to-value mapping - regardless of
the order in which the pairs are supplied. -/
theorem build_toValues_roundtrip (v : Vec α) (pairs : List (Nat × α))
    (hp : pairs.Perm v.toValues) :
    Vec.Equiv (Vec.build v.size pairs) v
    ∧ (Vec.build v.size pairs).nvals = v.nvals := by
  have hEq : Vec.Equiv (Vec.build v.size pairs) v := by
    refine ⟨rfl, fun i hi => ?_⟩
    have hnd : (pairs.map Prod.fst).Nodup :=
      ((hp.map Prod.fst).nodup_iff).mpr (toValues_keys_nodup v)
    show lookupFirst pairs i = v.entry i
    rw [lookupFirst_perm pairs v.toValues hp hnd i]
    exact lookupFirst_toValues v i hi
  exact ⟨hEq, nvals_congr _ _ hEq⟩

/-- Witness for claim C8: the README vector with indexes [0,1,3] and
values [1,2,3], rebuilt from a shuffled copy of its toValues() output. -/
theorem build_toValues_roundtrip_witness :
    ([(3, 3), (0, 1), (1, 2)].Perm
        ((Vec.build 4 [(0, 1), (1, 2), (3, 3)] : Vec Nat).toValues))
    ∧ Vec.Equiv (Vec.build 4 [(3, 3), (0, 1), (1, 2)])
        (Vec.build 4 [(0, 1), (1, 2), (3, 3)] : Vec Nat)
    ∧ (Vec.build 4 [(3, 3), (0, 1), (1, 2)] : Vec Nat).nvals
        = (Vec.build 4 [(0, 1), (1, 2), (3, 3)] : Vec Nat).nvals := by
  have hp : [(3, 3), (0, 1), (1, 2)].Perm
      ((Vec.build 4 [(0, 1), (1, 2), (3, 3)] : Vec Nat).toValues) := by decide
  have h := build_toValues_roundtrip (Vec.build 4 [(0, 1), (1, 2), (3, 3)])
    [(3, 3), (0, 1), (1, 2)] hp
  exact ⟨hp, h.1, h.2⟩

/-- Claim C6: the operation is atomic with respect to its output: it
raises exactly when a shape precondition fails, and in that case it raises
before any mutation, leaving the output container exactly as it was; when
all preconditions hold it fully applies its mask/accumulator
resolution. -/
theorem vxm_fail_fast_atomic (out : Vec α) (mask : Option (Vec β))
    (complement replace : Bool) (accum : Option (α → α → α)) (v : Vec α)
    (A : Mat α) (S : SR α) :
    ((∃ e, vxmChecked out mask complement replace accum v A S = .error e)
      ↔ vxmValid out mask v A = false)
    ∧ (vxmValid out mask v A = false →
        vxmExec out mask complement replace accum v A S = out)
    ∧ (vxmValid out mask v A = true →
        vxmChecked out mask complement replace accum v A S
          = .ok (writeOut out (vxm v A S) mask complement replace accum)) := by
  cases h : vxmValid out mask v A <;>
    simp [vxmChecked, vxmExec, h]

/-- Witness for claim C6: a concrete shape mismatch (output of size 2
against a 1 x 1 matrix) raises and leaves the output unchanged. -/
theorem vxm_fail_fast_atomic_witness :
    (vxmValid (Vec.empty 2 : Vec Nat) (none : Option (Vec Nat)) (Vec.empty 1)
        (Mat.empty 1 1) = false)
    ∧ vxmExec (Vec.empty 2 : Vec Nat) (none : Option (Vec Nat)) false false none
        (Vec.empty 1) (Mat.empty 1 1) minPlusSR = Vec.empty 2 :=
  ⟨by decide,
    (vxm_fail_fast_atomic (Vec.empty 2) (none : Option (Vec Nat)) false false none
      (Vec.empty 1) (Mat.empty 1 1) minPlusSR).2.1 (by decide)⟩

set_option maxHeartbeats 4000000 in
/-- Claim C4: on the notebook's 7-vertex weighted graph, seeding v[1] = 0
and iterating v = v.vxm(A, MIN_PLUS) with zeros stored on the diagonal of
A until v is unchanged reaches a fixed point that equals, entry by entry
over the whole dense range, the single-source shortest distances from
vertex 1 computed by the reference Bellman-Ford, with no stored entry at
unreachable vertices. -/
theorem sssp_fixed_point_matches_bellman_ford :
    Vec.Equiv (ssspStep ssspResult) ssspResult
    ∧ (List.range 7).map ssspResult.entry
        = (List.range 7).map (bellmanFord 7 ssspEdges 1) := by
  constructor
  · decide
  · decide

set_option maxHeartbeats 4000000 in
/-- Claim C5: on the 7-vertex graph taken as a boolean adjacency matrix
with source 1, the masked MIN_FIRST vxm loop with complemented structural
parents mask and replace terminates (the wavefront empties), and its
parents vector has parents[1] = 1 and forms a valid shortest-hop tree:
every reachable vertex stores a parent that is an in-neighbour one hop
closer to the root, and unreachable vertices store nothing. -/
theorem bfs_parent_tree_correct :
    bfsFinal.2.nvals = 0
    ∧ bfsFinal.1.entry 1 = some 1
    ∧ validParentVec bfsFinal.1 = true := by
  refine ⟨by decide, by decide, by decide⟩

theorem nvals_le_size (v : Vec α) : v.nvals ≤ v.size := by
  calc v.nvals ≤ (Finset.range v.size).card := Finset.card_filter_le _ _
  _ = v.size := Finset.card_range _

theorem writeOut_masked_out_replace (out computed : Vec α) (m : Vec β) (i : Nat)
    (hm : (m.entry i).isSome = true) :
    (writeOut out computed (some m) true true none).entry i = none := by
  show resolveEntry (maskedInAt (some m) true i) true none
    (out.entry i) (computed.entry i) = none
  have hmi : maskedInAt (some m) true i = false := by
    show ((m.entry i).isSome != true) = false
    rw [hm]
    rfl
  rw [hmi]
  rcases hc : computed.entry i with _ | tv <;> rfl

theorem bfsStep_wf_disjoint (A : Mat Nat) (ramp : Vec Nat)
    (st : Vec Nat × Vec Nat) (i : Nat)
    (h : ((bfsStep A ramp st).2.entry i).isSome = true) : st.1.entry i = none := by
  rcases hp : st.1.entry i with _ | q
  · rfl
  · exfalso
    have hz : ((bfsStep A ramp st).2.entry i) = none :=
      writeOut_masked_out_replace _ _ st.1 i (by rw [hp]; rfl)
    rw [hz] at h
    exact Bool.noConfusion h

theorem writeOut_accum_nvals (p wf : Vec Nat) (f : Nat → Nat → Nat)
    (hsz : wf.size = p.size)
    (hdisj : ∀ i, (wf.entry i).isSome = true → p.entry i = none) :
    (writeOut p (Vec.apply wf (fun x => x)) (none : Option (Vec Nat))
      false false (some f)).nvals = p.nvals + wf.nvals := by
  have hpred : ∀ i,
      ((writeOut p (Vec.apply wf (fun x => x)) (none : Option (Vec Nat))
        false false (some f)).entry i).isSome
      = ((p.entry i).isSome || (wf.entry i).isSome) := by
    intro i
    show (resolveEntry true false (some f) (p.entry i)
      ((wf.entry i).map (fun x => x))).isSome = _
    rcases p.entry i with _ | o <;> rcases wf.entry i with _ | t <;> rfl
  unfold Vec.nvals
  have hsplit :
      (Finset.range p.size).filter (fun i =>
        ((writeOut p (Vec.apply wf (fun x => x)) (none : Option (Vec Nat))
          false false (some f)).entry i).isSome)
      = ((Finset.range p.size).filter (fun i => (p.entry i).isSome))
        ∪ ((Finset.range p.size).filter (fun i => (wf.entry i).isSome)) := by
    rw [← Finset.filter_or]
    refine Finset.filter_congr (fun i hi => ?_)
    rw [hpred i]
    simp
  have hdis :
      Disjoint ((Finset.range p.size).filter (fun i => (p.entry i).isSome))
        ((Finset.range p.size).filter (fun i => (wf.entry i).isSome)) := by
    rw [Finset.disjoint_left]
    intro i hip hiw
    have h1 : (p.entry i).isSome := (Finset.mem_filter.mp hip).2
    have h2 : (wf.entry i).isSome := (Finset.mem_filter.mp hiw).2
    rw [hdisj i h2] at h1
    exact Bool.noConfusion h1
  show ((Finset.range p.size).filter _).card = _
  rw [hsplit, Finset.card_union_of_disjoint hdis, hsz]

theorem bfsStep_parent_nvals (A : Mat Nat) (ramp : Vec Nat)
    (st : Vec Nat × Vec Nat) (hsz : st.2.size = st.1.size) :
    (bfsStep A ramp st).1.nvals = st.1.nvals + (bfsStep A ramp st).2.nvals :=
  writeOut_accum_nvals st.1 (bfsStep A ramp st).2 Nat.add hsz
    (bfsStep_wf_disjoint A ramp st)

theorem bfsIterState_sizes (A : Mat Nat) (n s k : Nat) :
    (bfsIterState A n s k).1.size = n ∧ (bfsIterState A n s k).2.size = n := by
  induction k with
  | zero => exact ⟨rfl, rfl⟩
  | succ k ih =>
    have hstep : bfsIterState A n s (k + 1)
        = bfsStep A (indexRamp n) (bfsIterState A n s k) := by
      unfold bfsIterState
      exact Function.iterate_succ_apply' _ _ _
    rw [hstep]
    exact ⟨ih.1, ih.2⟩

theorem bfsIterState_parent_growth (A : Mat Nat) (n s k : Nat) :
    (bfsIterState A n s (k + 1)).1.nvals
      = (bfsIterState A n s k).1.nvals + (bfsIterState A n s (k + 1)).2.nvals := by
  have hsz : (bfsIterState A n s k).2.size = (bfsIterState A n s k).1.size := by
    rw [(bfsIterState_sizes A n s k).1, (bfsIterState_sizes A n s k).2]
  have hstep : bfsIterState A n s (k + 1)
      = bfsStep A (indexRamp n) (bfsIterState A n s k) := by
    unfold bfsIterState
    exact Function.iterate_succ_apply' _ _ _
  rw [hstep]
  exact bfsStep_parent_nvals A (indexRamp n) (bfsIterState A n s k) hsz

/-- Claim C10: the parent-BFS loop terminates for every finite adjacency
matrix: the new wavefront, written through the complemented structural
parents mask with replace, always has support disjoint from the parents'
support; hence the parents' stored-entry count grows by the wavefront's
count each iteration, strictly when the wavefront is non-empty, and since
it can never exceed N the wavefront's nvals reaches 0 within at most N
iterations, N being the number of vertices. -/
theorem bfs_loop_terminates (A : Mat Nat) (n s : Nat) (hs : s < n) :
    (∀ (st : Vec Nat × Vec Nat) (i : Nat),
        ((bfsStep A (indexRamp n) st).2.entry i).isSome = true →
          st.1.entry i = none)
    ∧ (∀ k, 0 < (bfsIterState A n s (k + 1)).2.nvals →
        (bfsIterState A n s k).1.nvals < (bfsIterState A n s (k + 1)).1.nvals)
    ∧ (∃ k, k ≤ n ∧ (bfsIterState A n s k).2.nvals = 0) := by
  refine ⟨fun st i h => bfsStep_wf_disjoint A (indexRamp n) st i h,
    fun k hk => ?_, ?_⟩
  · have h := bfsIterState_parent_growth A n s k
    omega
  · by_contra hall
    push_neg at hall
    have hgrow : ∀ k, k ≤ n → k + 1 ≤ (bfsIterState A n s k).1.nvals := by
      intro k
      induction k with
      | zero =>
        intro _
        have h0 : (bfsIterState A n s 0).1.nvals = 1 :=
          setElement_empty_nvals n s s hs
        omega
      | succ k ih =>
        intro hk
        have h1 := bfsIterState_parent_growth A n s k
        have h2 : 0 < (bfsIterState A n s (k + 1)).2.nvals :=
          Nat.pos_of_ne_zero (hall (k + 1) hk)
        have h3 := ih (by omega)
        omega
    have hbig := hgrow n (le_refl n)
    have hle : (bfsIterState A n s n).1.nvals ≤ n := by
      have hsz := (bfsIterState_sizes A n s n).1
      calc (bfsIterState A n s n).1.nvals
          ≤ (bfsIterState A n s n).1.size := nvals_le_size _
      _ = n := hsz
    omega

/-- Witness for claim C10: on the notebook's boolean adjacency matrix with
N = 7 and source 1, the wavefront empties within 7 iterations. -/
theorem bfs_loop_terminates_witness :
    (1 < 7) ∧ (∃ k, k ≤ 7 ∧ (bfsIterState bfsMatrix 7 1 k).2.nvals = 0) :=
  ⟨by decide, (bfs_loop_terminates bfsMatrix 7 1 (by decide)).2.2⟩

end Grblas
